import Mathlib

/-!
Verification development for the `useTranslation` i18n library.

The runtime core (`src/contexts/TranslationContext.tsx`) is embedded as a pure
state machine: React state becomes an explicit `PState` record, the browser
`fetch` becomes an oracle `String → FetchOutcome`, and the three operations of
the provider (`t`, `loadNamespaces`, `setLanguage` together with the
language-change effect) become state transformers.  JSON values are modelled by
the inductive `Json` (strings, numbers and objects; `null`, arrays and booleans
play no role in the properties verified here).  A JavaScript object property
holding the value `undefined` is observationally identical to an absent
property for every read this code performs, so the merge step models such an
assignment as removal of the key.

The build scripts (`scripts/hashTranslations.js`, `scripts/translationTypes.js`)
are embedded with an executable MD5 over byte lists, and the helper
`formatPlural` (`src/utils/translationHelpers.ts`) over `Int` counts with an
explicit global-replacement function mirroring `String.replace(/.../g, ...)`.
-/

namespace UseTranslation

/-- Model of a JSON value: string leaves, numeric leaves and objects
(association lists in source order). -/
inductive Json where
  | str : String → Json
  | num : Int → Json
  | obj : List (String × Json) → Json

/-- Lookup of a property in a JavaScript object modelled as an association
list; the first binding wins, as in a JS object no key occurs twice. -/
def assocLookup (l : List (String × Json)) (k : String) : Option Json :=
  match l with
  | [] => none
  | (k₀, v) :: rest => if k₀ = k then some v else assocLookup rest k

/-- Set a property of a JS object: overwrite the binding if present, append
otherwise. -/
def assocSet (l : List (String × Json)) (k : String) (v : Json) :
    List (String × Json) :=
  match l with
  | [] => [(k, v)]
  | (k₀, v₀) :: rest =>
    if k₀ = k then (k₀, v) :: rest else (k₀, v₀) :: assocSet rest k v

/-- Remove a property of a JS object (used to model assigning `undefined`,
which is indistinguishable from absence for every read in this code). -/
def assocErase (l : List (String × Json)) (k : String) :
    List (String × Json) :=
  match l with
  | [] => []
  | (k₀, v₀) :: rest =>
    if k₀ = k then assocErase rest k else (k₀, v₀) :: assocErase rest k

/-- JavaScript truthiness of the values a lookup can produce: `undefined`,
the empty string and the number `0` are falsy, everything else is truthy. -/
def jsTruthy : Option Json → Bool
  | none => false
  | some (.str s) => !(s = "")
  | some (.num n) => !(n = 0)
  | some (.obj _) => true

/-- Canonical decimal index of a JavaScript property name: all digits with no
leading zero (so `"0"` and `"10"` qualify, `"00"` and `"-1"` do not).  Only
such names are integer-indexed own properties of a string. -/
def decimalIndex (cs : List Char) : Option Nat :=
  match cs with
  | [] => none
  | c :: rest =>
    if (c :: rest).all (fun d => d.isDigit) &&
        (decide (c ≠ '0') || rest.isEmpty) then
      some ((c :: rest).foldl (fun acc d => acc * 10 + (d.toNat - 48)) 0)
    else none

/-- Model of the JavaScript property read `value[k]`.  On objects it is own
property lookup.  A string has integer-indexed own properties — one for each
of its positions, holding the one-character string — and the own property
`length`; every other read on a string or number value, and a missed key on
an object, yields `undefined` in this model.  Members inherited from the
builtin prototypes (the engine-dependent method sets of Object.prototype,
String.prototype, Number.prototype) are NOT modelled: reads the code could
make of them are kept out of theorem scope by the `safeWalk` hypothesis
below. -/
def jsIndex : Json → String → Option Json
  | .obj l, k => assocLookup l k
  | .str s, k =>
    if k = "length" then some (.num (s.length : Int))
    else
      match decimalIndex k.data with
      | some n =>
        match s.data[n]? with
        | some c => some (.str (String.mk [c]))
        | none => none
      | none => none
  | .num _, _ => none

/-- Walk of the key path performed by `t`:
`for (const k of keyPath) { if (value === undefined) return key; value = value[k]; }`.
The result is the final value of `value` (`none` when the loop returned early,
which the caller turns into the key, exactly as the code does). -/
def walkPath : Option Json → List String → Option Json
  | v, [] => v
  | none, _ :: _ => none
  | some v, k :: ks => walkPath (jsIndex v k) ks

/-- Member names inherited by every plain object from `Object.prototype`
(stable across engines since ES5).  A missed key on a data object that is one
of these names is not `undefined` in JavaScript. -/
def objectProtoNames : List String :=
  ["constructor", "hasOwnProperty", "isPrototypeOf", "propertyIsEnumerable",
   "toLocaleString", "toString", "valueOf", "__proto__", "__defineGetter__",
   "__defineSetter__", "__lookupGetter__", "__lookupSetter__"]

/-- Fragment of key paths on which the embedding of `value[k]` agrees with
JavaScript exactly: every performed lookup is an own-property hit on a data
object, or a genuine miss — a key that is neither an own property nor
inherited from `Object.prototype` (after which the walk terminates at the
`undefined` check, as the model does).  Paths that read a property of a
string or number leaf, or miss with a prototype member name, step into
engine-dependent builtin-prototype territory that this model does not
follow. -/
def safeWalk : Option Json → List String → Bool
  | _, [] => true
  | none, _ :: _ => true
  | some (.str _), _ :: _ => false
  | some (.num _), _ :: _ => false
  | some (.obj l), k :: ks =>
    match assocLookup l k with
    | some v => safeWalk (some v) ks
    | none => decide (k ∉ objectProtoNames)

/-- Model of `key.split('.')` of JavaScript.  `splitDotsAux cs acc` processes
the remaining characters with the reversed current segment `acc`. -/
def splitDotsAux : List Char → List Char → List String
  | [], acc => [String.mk acc.reverse]
  | c :: rest, acc =>
    if c = '.' then String.mk acc.reverse :: splitDotsAux rest []
    else splitDotsAux rest (c :: acc)

/-- JavaScript `key.split('.')` (always a non-empty list; the empty string
splits to `[""]`). -/
def splitDots (s : String) : List String :=
  splitDotsAux s.data []

/-- Static configuration of a `TranslationProvider` instance: the props that
never change during a session. -/
structure Config where
  defaultLanguage : String
  defaultTranslations : List (String × Json)
  translationManifest : List (String × String)
  localesPath : String
  localesHashedPath : String

/-- Lookup in the hash manifest (a flat JS object of strings). -/
def manifestLookup (m : List (String × String)) (k : String) : Option String :=
  match m with
  | [] => none
  | (k₀, v) :: rest => if k₀ = k then some v else manifestLookup rest k

/-- URL computed by `loadTranslationsForNamespaces` for one `(language,
namespace)` pair: the conventional path is the default, and is replaced by the
hashed path when the manifest holds a truthy (hence non-empty) entry for
`"{language}/{namespace}"`. -/
def resolveUrl (cfg : Config) (lang ns : String) : String :=
  let defaultUrl := cfg.localesPath ++ "/" ++ lang ++ "/" ++ ns ++ ".json"
  match manifestLookup cfg.translationManifest (lang ++ "/" ++ ns) with
  | some h => if h = "" then defaultUrl else cfg.localesHashedPath ++ "/" ++ h
  | none => defaultUrl

/-- Pure value part of `t`: given the current `translations` state, the key
and the namespace, compute the returned string.  This mirrors the body of the
memoised arrow function in the source line by line (the namespace-loading side
effect is modelled separately in `tOp`). -/
def tLookup (cfg : Config) (translations : List (String × Json))
    (key ns : String) : String :=
  let keyPath := splitDots key
  let v0 := assocLookup translations ns
  let v1 :=
    if !(jsTruthy v0) && jsTruthy (assocLookup cfg.defaultTranslations ns) then
      assocLookup cfg.defaultTranslations ns
    else v0
  match walkPath v1 keyPath with
  | some (.str s) => s
  | _ => key

/-- Resolution using the DefaultBundle only: what `t` computes when the live
`translations` state equals `defaultTranslations`.  Mentioned by the
default-language claims; defined solely from `cfg.defaultTranslations`. -/
def resolveFromDefaults (cfg : Config) (key ns : String) : String :=
  match walkPath (assocLookup cfg.defaultTranslations ns) (splitDots key) with
  | some (.str s) => s
  | _ => key

/-- Outcome of one `fetch(url)` (plus the subsequent `response.json()`):
a 2xx response with parseable JSON, a non-2xx response (`response.ok` false),
or a thrown error (network failure or JSON parse failure, both of which land
in the `catch (fetchError)` branch). -/
inductive FetchOutcome where
  | ok : Json → FetchOutcome
  | notOk : FetchOutcome
  | err : FetchOutcome

/-- Record of one issued fetch: the language and namespace of the loop
iteration, and the URL passed to `fetch`. -/
structure FetchEvent where
  lang : String
  ns : String
  url : String
deriving DecidableEq

/-- Live state of a `TranslationProvider`: the four `useState` cells, plus two
observation logs (issued fetches and `console.error` calls inside the fetch
loop) that make the temporal claims statable. -/
structure PState where
  language : String
  translations : List (String × Json)
  loadedNamespaces : List String
  isLoading : Bool
  fetchLog : List FetchEvent
  errorLog : List String

/-- Translation entry produced for one namespace of a batch: the parsed data
on success, and the DefaultBundle entry for that namespace (possibly
`undefined`, i.e. `none`) on a non-2xx response or a thrown error. -/
def entryOutcome (cfg : Config) (fetch : String → FetchOutcome)
    (lang ns : String) : Option Json :=
  match fetch (resolveUrl cfg lang ns) with
  | .ok d => some d
  | .notOk => assocLookup cfg.defaultTranslations ns
  | .err => assocLookup cfg.defaultTranslations ns

/-- Fetch events issued by one run of the namespace loop (one per namespace,
in order, independent of the outcomes). -/
def loaderEvents (cfg : Config) (lang : String) (nss : List String) :
    List FetchEvent :=
  nss.map (fun ns => ⟨lang, ns, resolveUrl cfg lang ns⟩)

/-- Namespaces of a batch whose fetch threw (only those reach the
`console.error` call; a non-2xx response takes the silent `else` branch). -/
def loaderErrors (cfg : Config) (fetch : String → FetchOutcome)
    (lang : String) (nss : List String) : List String :=
  nss.filter (fun ns =>
    match fetch (resolveUrl cfg lang ns) with
    | .err => true
    | _ => false)

/-- Application of the object spread `{ ...prev, ...newTranslations }` to the
previous translations: later entries win, and an entry whose value is
`undefined` (`none`) overwrites the key with `undefined`, which is
indistinguishable from absence for every read in this code. -/
def applyEntries (t : List (String × Json)) :
    List (String × Option Json) → List (String × Json)
  | [] => t
  | (ns, some j) :: rest => applyEntries (assocSet t ns j) rest
  | (ns, none) :: rest => applyEntries (assocErase t ns) rest

/-- Model of `loadTranslationsForNamespaces`: returns unchanged state when the
current language is the default (the early return, before `setIsLoading`);
otherwise processes every namespace of the batch, merges the results into
`translations`, appends the issued fetches and logged errors, and clears
`isLoading` (the `finally` block). -/
def loadTranslationsForNamespaces (cfg : Config)
    (fetch : String → FetchOutcome) (nss : List String) (s : PState) :
    PState :=
  if s.language = cfg.defaultLanguage then s
  else
    { s with
      translations := applyEntries s.translations
        (nss.map (fun ns => (ns, entryOutcome cfg fetch s.language ns))),
      isLoading := false,
      fetchLog := s.fetchLog ++ loaderEvents cfg s.language nss,
      errorLog := s.errorLog ++ loaderErrors cfg fetch s.language nss }

/-- Insertion into the `loadedNamespaces` set
(`new Set([...prev, ...newNamespaces])` keeps the first occurrence). -/
def insertNs (l : List String) (ns : String) : List String :=
  if ns ∈ l then l else l ++ [ns]

/-- Model of the public `loadNamespaces` operation: filter out namespaces
already requested; if any remain, record them as requested and load them. -/
def loadNamespacesOp (cfg : Config) (fetch : String → FetchOutcome)
    (nss : List String) (s : PState) : PState :=
  let newNss := nss.filter (fun ns => decide (ns ∉ s.loadedNamespaces))
  if newNss.isEmpty then s
  else
    loadTranslationsForNamespaces cfg fetch newNss
      { s with loadedNamespaces := newNss.foldl insertNs s.loadedNamespaces }

/-- Model of one call to `t`: the returned string is computed from the
`translations` captured by the current render (the state before the call);
the side effect marks the namespace requested and, away from the default
language, loads it immediately. -/
def tOp (cfg : Config) (fetch : String → FetchOutcome) (key ns : String)
    (s : PState) : String × PState :=
  let s1 :=
    if ns ∈ s.loadedNamespaces then s
    else
      let s' := { s with loadedNamespaces := insertNs s.loadedNamespaces ns }
      if s.language = cfg.defaultLanguage then s'
      else loadTranslationsForNamespaces cfg fetch [ns] s'
  (tLookup cfg s.translations key ns, s1)

/-- Body of the language-change `useEffect` (it also runs once on mount): for
the default language reset `translations` to the DefaultBundle, otherwise
re-load every currently tracked namespace for the new language. -/
def languageEffect (cfg : Config) (fetch : String → FetchOutcome)
    (s : PState) : PState :=
  if s.language = cfg.defaultLanguage then
    { s with translations := cfg.defaultTranslations }
  else loadTranslationsForNamespaces cfg fetch s.loadedNamespaces s

/-- Model of `setLanguage` together with the effect it triggers. -/
def setLanguageOp (cfg : Config) (fetch : String → FetchOutcome)
    (lang : String) (s : PState) : PState :=
  languageEffect cfg fetch { s with language := lang }

/-- Observable operations a consumer can perform on the provider. -/
inductive Op where
  | tCall : String → String → Op
  | loadNs : List String → Op
  | setLang : String → Op

/-- Step function of the provider state machine. -/
def applyOp (cfg : Config) (fetch : String → FetchOutcome) :
    Op → PState → PState
  | .tCall key ns, s => (tOp cfg fetch key ns s).2
  | .loadNs nss, s => loadNamespacesOp cfg fetch nss s
  | .setLang lang, s => setLanguageOp cfg fetch lang s

/-- Initial `useState` values: the language restored from storage when it
passes the supported-language predicate (else the default), `translations`
seeded with the DefaultBundle, `loadedNamespaces` seeded with
`new Set(Object.keys(defaultTranslations))`, not loading. -/
def initState (cfg : Config) (saved : Option String)
    (isSupportedLanguage : String → Bool) : PState :=
  { language :=
      match saved with
      | some l => if isSupportedLanguage l then l else cfg.defaultLanguage
      | none => cfg.defaultLanguage,
    translations := cfg.defaultTranslations,
    loadedNamespaces :=
      ((cfg.defaultTranslations.map Prod.fst).foldl insertNs []),
    isLoading := false,
    fetchLog := [],
    errorLog := [] }

/-- States of a provider session: the initial state after the mount effect,
followed by any sequence of consumer operations. -/
def reachable (cfg : Config) (fetch : String → FetchOutcome)
    (saved : Option String) (isSupportedLanguage : String → Bool)
    (s : PState) : Prop :=
  ∃ ops : List Op,
    s = ops.foldl (fun st op => applyOp cfg fetch op st)
      (languageEffect cfg fetch (initState cfg saved isSupportedLanguage))

/-- Intermediate states of one batch of `loadTranslationsForNamespaces` away
from the default language, as seen between the `await` points: the state
right after `setIsLoading(true)`, then the state after each namespace of the
batch is processed.  `translations` is untouched until the batch completes
(the single `setTranslations` runs after the loop), while the logs grow. -/
def batchTrace (cfg : Config) (fetch : String → FetchOutcome)
    (nss : List String) (s : PState) : List PState :=
  (List.range (nss.length + 1)).map (fun i =>
    { s with
      isLoading := true,
      fetchLog := s.fetchLog ++ loaderEvents cfg s.language (nss.take i),
      errorLog := s.errorLog ++ loaderErrors cfg fetch s.language (nss.take i) })

/-- Fetch events a single operation appends to the log, as a function of the
state it runs from (they do not depend on the fetch outcomes). -/
def opFetches (cfg : Config) (op : Op) (s : PState) : List FetchEvent :=
  match op with
  | .tCall _ ns =>
    if ns ∈ s.loadedNamespaces then []
    else if s.language = cfg.defaultLanguage then []
    else loaderEvents cfg s.language [ns]
  | .loadNs nss =>
    let newNss := nss.filter (fun ns => decide (ns ∉ s.loadedNamespaces))
    if newNss.isEmpty then []
    else if s.language = cfg.defaultLanguage then []
    else loaderEvents cfg s.language newNss
  | .setLang lang =>
    if lang = cfg.defaultLanguage then []
    else loaderEvents cfg lang s.loadedNamespaces

/-- Shape of the TypeScript interface text emitted by
`generateInterfaceProperties`: one entry per property, either
`key: string;` or `key: { ... };` with the nested entries. -/
inductive SchemaEntry where
  | leafStr : String → SchemaEntry
  | node : String → List SchemaEntry → SchemaEntry

/-- Model of `generateInterfaceProperties` from `scripts/translationTypes.js`:
for each entry of the object, a nested object recurses into a `node`, and any
other value (string, or an out-of-contract scalar) emits `key: string;`.  The
textual indentation argument carries no information and is dropped. -/
def generateInterfaceProperties : List (String × Json) → List SchemaEntry
  | [] => []
  | (k, .obj l) :: rest =>
    .node k (generateInterfaceProperties l) :: generateInterfaceProperties rest
  | (k, .str _) :: rest => .leafStr k :: generateInterfaceProperties rest
  | (k, .num _) :: rest => .leafStr k :: generateInterfaceProperties rest

/-- Model of `generateDefaultTranslations` from `scripts/translationTypes.js`:
build the `translations` object by assigning each parsed namespace file in
turn (file discovery and `JSON.parse`/`JSON.stringify` of the platform are
abstracted: the input is the association list from namespace to parsed tree,
and the emitted bundle is the built object, verbatim). -/
def generateDefaultTranslations (files : List (String × Json)) :
    List (String × Json) :=
  files.foldl (fun acc p => assocSet acc p.1 p.2) []

/-- Dot-separated key paths reaching a string leaf in a translation
dictionary, in source order. -/
def stringLeafPaths : List (String × Json) → List (List String)
  | [] => []
  | (k, .str _) :: rest => [k] :: stringLeafPaths rest
  | (k, .num _) :: rest => stringLeafPaths rest
  | (k, .obj l) :: rest =>
    (stringLeafPaths l).map (fun p => k :: p) ++ stringLeafPaths rest

/-- Key paths enumerated by an emitted schema: a leaf entry contributes its
key, a node entry contributes its key in front of every path of its body. -/
def schemaPaths : List SchemaEntry → List (List String)
  | [] => []
  | .leafStr k :: rest => [k] :: schemaPaths rest
  | .node k sub :: rest =>
    (schemaPaths sub).map (fun p => k :: p) ++ schemaPaths rest

/-- Well-formedness of a translation dictionary as the spec states it:
internal nodes are objects and every leaf is a string. -/
def wellFormedList : List (String × Json) → Bool
  | [] => true
  | (_, .str _) :: rest => wellFormedList rest
  | (_, .num _) :: rest => false
  | (_, .obj l) :: rest => wellFormedList l && wellFormedList rest

/-- Test for a pattern occurring at the head of a character list. -/
def matchesAt : List Char → List Char → Bool
  | [], _ => true
  | _ :: _, [] => false
  | p :: ps, c :: cs => p = c && matchesAt ps cs

/-- Global, leftmost, non-overlapping replacement on character lists, the
semantics of `text.replace(/pattern/g, rep)` for a plain non-empty pattern.
The fuel argument (instantiated with the length of the text) keeps the
recursion structural; one unit of fuel is spent per examined position, so it
never runs out. -/
def replaceAllAux (pt rep : List Char) : Nat → List Char → List Char
  | _, [] => []
  | 0, cs => cs
  | fuel + 1, c :: cs =>
    if matchesAt pt (c :: cs) then
      rep ++ replaceAllAux pt rep fuel (List.drop pt.length (c :: cs))
    else c :: replaceAllAux pt rep fuel cs

/-- JavaScript `s.replace(/pt/g, rep)` for a plain non-empty pattern `pt`
and a replacement string free of `$` patterns. -/
def jsReplaceAll (s pt rep : String) : String :=
  String.mk (replaceAllAux pt.data rep.data s.data.length s.data)

/-- The placeholder `\x7b\x7bcount\x7d\x7d` looked for by `formatPlural`. -/
def countPlaceholder : String := "\x7b\x7bcount\x7d\x7d"

/-- Model of `formatPlural` from `src/utils/translationHelpers.ts`,
restricted to integer counts: the JavaScript number argument is an IEEE-754
double, embedded here as `Int`, with `String(count)` becoming `toString` and
`count === 1` equality with 1.  Non-integer counts, and counts of magnitude
at least 1e21 where `String(count)` switches to exponential notation, are
floating-point behavior outside this embedding. -/
def formatPlural (count : Int) (one other : String) : String :=
  if count = 1 then one
  else jsReplaceAll other countPlaceholder (toString count)

/-- Bitmask for 32-bit words. -/
def mask32 : Nat := 4294967295

/-- Addition modulo 2^32. -/
def add32 (a b : Nat) : Nat := (a + b) % 4294967296

/-- Left rotation of a 32-bit word. -/
def rotl32 (x s : Nat) : Nat :=
  ((x <<< s) &&& mask32) ||| ((x &&& mask32) >>> (32 - s))

/-- Round function F of MD5 (rounds 0 to 15). -/
def md5F (b c d : Nat) : Nat := (b &&& c) ||| ((b ^^^ mask32) &&& d)

/-- Round function G of MD5 (rounds 16 to 31). -/
def md5G (b c d : Nat) : Nat := (d &&& b) ||| ((d ^^^ mask32) &&& c)

/-- Round function H of MD5 (rounds 32 to 47). -/
def md5H (b c d : Nat) : Nat := b ^^^ c ^^^ d

/-- Round function I of MD5 (rounds 48 to 63). -/
def md5I (b c d : Nat) : Nat := c ^^^ (b ||| (d ^^^ mask32))

/-- Per-round sine-derived constants of MD5 (RFC 1321). -/
def md5K : List Nat :=
  [0xd76aa478, 0xe8c7b756, 0x242070db, 0xc1bdceee,
   0xf57c0faf, 0x4787c62a, 0xa8304613, 0xfd469501,
   0x698098d8, 0x8b44f7af, 0xffff5bb1, 0x895cd7be,
   0x6b901122, 0xfd987193, 0xa679438e, 0x49b40821,
   0xf61e2562, 0xc040b340, 0x265e5a51, 0xe9b6c7aa,
   0xd62f105d, 0x02441453, 0xd8a1e681, 0xe7d3fbc8,
   0x21e1cde6, 0xc33707d6, 0xf4d50d87, 0x455a14ed,
   0xa9e3e905, 0xfcefa3f8, 0x676f02d9, 0x8d2a4c8a,
   0xfffa3942, 0x8771f681, 0x6d9d6122, 0xfde5380c,
   0xa4beea44, 0x4bdecfa9, 0xf6bb4b60, 0xbebfbc70,
   0x289b7ec6, 0xeaa127fa, 0xd4ef3085, 0x04881d05,
   0xd9d4d039, 0xe6db99e5, 0x1fa27cf8, 0xc4ac5665,
   0xf4292244, 0x432aff97, 0xab9423a7, 0xfc93a039,
   0x655b59c3, 0x8f0ccc92, 0xffeff47d, 0x85845dd1,
   0x6fa87e4f, 0xfe2ce6e0, 0xa3014314, 0x4e0811a1,
   0xf7537e82, 0xbd3af235, 0x2ad7d2bb, 0xeb86d391]

/-- Per-round rotation amounts of MD5 (RFC 1321). -/
def md5S : List Nat :=
  [7, 12, 17, 22, 7, 12, 17, 22, 7, 12, 17, 22, 7, 12, 17, 22,
   5, 9, 14, 20, 5, 9, 14, 20, 5, 9, 14, 20, 5, 9, 14, 20,
   4, 11, 16, 23, 4, 11, 16, 23, 4, 11, 16, 23, 4, 11, 16, 23,
   6, 10, 15, 21, 6, 10, 15, 21, 6, 10, 15, 21, 6, 10, 15, 21]

/-- State of the MD5 compression function: the four 32-bit registers. -/
structure Md5State where
  a : Nat
  b : Nat
  c : Nat
  d : Nat

/-- One of the 64 rounds of the MD5 compression function on a 16-word
message block `m`. -/
def md5Round (m : List Nat) (st : Md5State) (i : Nat) : Md5State :=
  let f :=
    if i < 16 then md5F st.b st.c st.d
    else if i < 32 then md5G st.b st.c st.d
    else if i < 48 then md5H st.b st.c st.d
    else md5I st.b st.c st.d
  let g :=
    if i < 16 then i
    else if i < 32 then (5 * i + 1) % 16
    else if i < 48 then (3 * i + 5) % 16
    else (7 * i) % 16
  let tmp := add32 (add32 (add32 st.a f) (md5K.getD i 0)) (m.getD g 0)
  ⟨st.d, add32 st.b (rotl32 tmp (md5S.getD i 0)), st.b, st.c⟩

/-- MD5 compression of one 512-bit chunk given as 16 little-endian words. -/
def md5ProcessChunk (st : Md5State) (m : List Nat) : Md5State :=
  let r := (List.range 64).foldl (md5Round m) st
  ⟨add32 st.a r.a, add32 st.b r.b, add32 st.c r.c, add32 st.d r.d⟩

/-- Little-endian 8-byte rendering of the 64-bit message bit length. -/
def le64 (n : Nat) : List Nat :=
  (List.range 8).map (fun i => (n >>> (8 * i)) % 256)

/-- MD5 padding: a 0x80 byte, zeros up to 56 mod 64, then the bit length. -/
def md5Pad (msg : List Nat) : List Nat :=
  let z := (119 - msg.length % 64) % 64
  msg ++ [0x80] ++ List.replicate z 0 ++ le64 ((msg.length * 8) % 2 ^ 64)

/-- The 16 little-endian words of the chunk starting at byte `64 * i` of the
padded message. -/
def md5Words (padded : List Nat) (i : Nat) : List Nat :=
  (List.range 16).map (fun j =>
    padded.getD (64 * i + 4 * j) 0 +
    256 * padded.getD (64 * i + 4 * j + 1) 0 +
    65536 * padded.getD (64 * i + 4 * j + 2) 0 +
    16777216 * padded.getD (64 * i + 4 * j + 3) 0)

/-- Initial register values of MD5. -/
def md5Init : Md5State := ⟨0x67452301, 0xefcdab89, 0x98badcfe, 0x10325476⟩

/-- Final register state of MD5 over a byte list. -/
def md5Final (msg : List Nat) : Md5State :=
  let padded := md5Pad msg
  (List.range (padded.length / 64)).foldl
    (fun st i => md5ProcessChunk st (md5Words padded i)) md5Init

/-- Little-endian 4-byte rendering of a 32-bit word. -/
def le4 (w : Nat) : List Nat :=
  [w % 256, (w >>> 8) % 256, (w >>> 16) % 256, (w >>> 24) % 256]

/-- The 16 digest bytes of MD5. -/
def md5Digest (msg : List Nat) : List Nat :=
  let st := md5Final msg
  le4 st.a ++ le4 st.b ++ le4 st.c ++ le4 st.d

/-- Lowercase hexadecimal digit. -/
def hexDigitChar (n : Nat) : Char :=
  if n < 10 then Char.ofNat (48 + n) else Char.ofNat (87 + n)

/-- Two lowercase hex characters of one byte. -/
def byteHexChars (b : Nat) : List Char :=
  [hexDigitChar (b / 16), hexDigitChar (b % 16)]

/-- The 32 hex characters of `crypto.createHash('md5').update(content).digest('hex')`. -/
def md5HexChars (msg : List Nat) : List Char :=
  (md5Digest msg).flatMap byteHexChars

/-- Model of `generateHash` from `scripts/hashTranslations.js` applied to the
bytes read from the file: the first 8 hex characters of the MD5 digest
(`.digest('hex').substring(0, 8)`). -/
def generateHash (content : List Nat) : String :=
  String.mk ((md5HexChars content).take 8)

/-- A file as the hashing script sees it: a path, a modification time and the
byte content.  Only the content reaches `generateHash`
(`fs.readFileSync(filePath)` followed by the MD5 digest). -/
structure FileRecord where
  path : String
  mtime : Nat
  content : List Nat

/-- Hash of a file: `generateHash(readFileSync(filePath))`, a function of the
bytes only. -/
def hashFile (f : FileRecord) : String := generateHash f.content

/-! Association-list lemmas. -/

theorem assocLookup_set_self (l : List (String × Json)) (k : String) (v : Json) :
    assocLookup (assocSet l k v) k = some v := by
  induction l with
  | nil => simp [assocSet, assocLookup]
  | cons p rest ih =>
    obtain ⟨k₀, v₀⟩ := p
    by_cases h : k₀ = k <;> simp [assocSet, assocLookup, h, ih]

theorem assocLookup_set_ne (l : List (String × Json)) (k k₂ : String) (v : Json)
    (h : k ≠ k₂) : assocLookup (assocSet l k v) k₂ = assocLookup l k₂ := by
  induction l with
  | nil => simp [assocSet, assocLookup, h]
  | cons p rest ih =>
    obtain ⟨k₀, v₀⟩ := p
    by_cases h₀ : k₀ = k
    · subst h₀; simp [assocSet, assocLookup, h, ih]
    · simp [assocSet, assocLookup, h₀, ih]

theorem assocLookup_erase_self (l : List (String × Json)) (k : String) :
    assocLookup (assocErase l k) k = none := by
  induction l with
  | nil => simp [assocErase, assocLookup]
  | cons p rest ih =>
    obtain ⟨k₀, v₀⟩ := p
    by_cases h : k₀ = k <;> simp [assocErase, assocLookup, h, ih]

theorem assocLookup_erase_ne (l : List (String × Json)) (k k₂ : String)
    (h : k ≠ k₂) : assocLookup (assocErase l k) k₂ = assocLookup l k₂ := by
  induction l with
  | nil => simp [assocErase, assocLookup]
  | cons p rest ih =>
    obtain ⟨k₀, v₀⟩ := p
    by_cases h₀ : k₀ = k
    · subst h₀; simp [assocErase, assocLookup, h, ih]
    · simp [assocErase, assocLookup, h₀, ih]

theorem assocLookup_eq_none_of_not_mem (l : List (String × Json)) (k : String)
    (h : k ∉ l.map Prod.fst) : assocLookup l k = none := by
  induction l with
  | nil => rfl
  | cons p rest ih =>
    obtain ⟨k₀, v₀⟩ := p
    simp only [List.map_cons, List.mem_cons] at h
    push_neg at h
    simp [assocLookup, Ne.symm h.1, ih h.2]

theorem applyEntries_lookup_not_mem (entries : List (String × Option Json))
    (t : List (String × Json)) (ns : String)
    (h : ns ∉ entries.map Prod.fst) :
    assocLookup (applyEntries t entries) ns = assocLookup t ns := by
  induction entries generalizing t with
  | nil => rfl
  | cons p rest ih =>
    obtain ⟨k₀, e₀⟩ := p
    simp only [List.map_cons, List.mem_cons] at h
    push_neg at h
    have hk : k₀ ≠ ns := fun hh => h.1 hh.symm
    cases e₀ with
    | some j => rw [applyEntries, ih _ h.2, assocLookup_set_ne _ _ _ _ hk]
    | none => rw [applyEntries, ih _ h.2, assocLookup_erase_ne _ _ _ hk]

theorem applyEntries_lookup_mem (entries : List (String × Option Json))
    (t : List (String × Json)) (ns : String) (e : Option Json)
    (hmem : (ns, e) ∈ entries) (hnodup : (entries.map Prod.fst).Nodup) :
    assocLookup (applyEntries t entries) ns = e := by
  induction entries generalizing t with
  | nil => cases hmem
  | cons p rest ih =>
    obtain ⟨k₀, e₀⟩ := p
    simp only [List.map_cons, List.nodup_cons] at hnodup
    rcases List.mem_cons.mp hmem with heq | htail
    · injection heq with hk he
      subst hk; subst he
      cases e with
      | some j =>
        simp only [applyEntries]
        rw [applyEntries_lookup_not_mem _ _ _ hnodup.1, assocLookup_set_self]
      | none =>
        simp only [applyEntries]
        rw [applyEntries_lookup_not_mem _ _ _ hnodup.1, assocLookup_erase_self]
    · cases e₀ with
      | some j => simp only [applyEntries]; exact ih _ htail hnodup.2
      | none => simp only [applyEntries]; exact ih _ htail hnodup.2

/-! Lemmas about the requested-namespace set. -/

theorem mem_insertNs (l : List String) (a x : String) :
    x ∈ insertNs l a ↔ x ∈ l ∨ x = a := by
  unfold insertNs
  split
  · next h => exact ⟨Or.inl, fun hx => hx.elim id (fun hxa => hxa ▸ h)⟩
  · simp

theorem subset_insertNs (l : List String) (a : String) : l ⊆ insertNs l a :=
  fun _ hx => (mem_insertNs l a _).mpr (Or.inl hx)

theorem mem_foldl_insertNs (nss : List String) (acc : List String)
    (x : String) : x ∈ nss.foldl insertNs acc ↔ x ∈ acc ∨ x ∈ nss := by
  induction nss generalizing acc with
  | nil => simp
  | cons a rest ih =>
    rw [List.foldl_cons, ih, mem_insertNs]
    simp only [List.mem_cons]
    tauto

theorem subset_foldl_insertNs (nss acc : List String) :
    acc ⊆ nss.foldl insertNs acc :=
  fun x hx => (mem_foldl_insertNs nss acc x).mpr (Or.inl hx)

/-! Basic facts about the loader. -/

theorem loadTranslations_language (cfg : Config) (fetch : String → FetchOutcome)
    (nss : List String) (s : PState) :
    (loadTranslationsForNamespaces cfg fetch nss s).language = s.language := by
  unfold loadTranslationsForNamespaces; split <;> rfl

theorem loadTranslations_loaded (cfg : Config) (fetch : String → FetchOutcome)
    (nss : List String) (s : PState) :
    (loadTranslationsForNamespaces cfg fetch nss s).loadedNamespaces =
      s.loadedNamespaces := by
  unfold loadTranslationsForNamespaces; split <;> rfl

theorem loadTranslations_fetchLog (cfg : Config) (fetch : String → FetchOutcome)
    (nss : List String) (s : PState) :
    (loadTranslationsForNamespaces cfg fetch nss s).fetchLog =
      s.fetchLog ++
        (if s.language = cfg.defaultLanguage then []
         else loaderEvents cfg s.language nss) := by
  unfold loadTranslationsForNamespaces; split <;> simp_all

theorem loadTranslations_translations_default (cfg : Config)
    (fetch : String → FetchOutcome) (nss : List String) (s : PState)
    (h : s.language = cfg.defaultLanguage) :
    (loadTranslationsForNamespaces cfg fetch nss s).translations =
      s.translations := by
  unfold loadTranslationsForNamespaces; simp [h]

/-- Integer-count fragment of `formatPlural`: it returns `one` verbatim
exactly when the count equals 1 (any placeholder inside `one` is left alone
because the string is returned unchanged), and for every other integer count
returns `other` with every occurrence of the `count` placeholder replaced by
the decimal rendering of the count. -/
theorem formatPlural_spec (count : Int) (one other : String) :
    (count = 1 → formatPlural count one other = one) ∧
    (count ≠ 1 →
      formatPlural count one other =
        jsReplaceAll other countPlaceholder (toString count)) := by
  refine ⟨fun h => ?_, fun h => ?_⟩ <;> simp [formatPlural, h]

/-- Concrete evaluation of `formatPlural_spec` at the counts 1 and 0: the
singular form is returned verbatim (placeholder untouched), and for 0 the
placeholder is substituted everywhere. -/
theorem formatPlural_spec_witness :
    formatPlural 1 "\x7b\x7bcount\x7d\x7d item" "\x7b\x7bcount\x7d\x7d items" =
      "\x7b\x7bcount\x7d\x7d item" ∧
    formatPlural 0 "\x7b\x7bcount\x7d\x7d item" "\x7b\x7bcount\x7d\x7d items" =
      "0 items" := by
  constructor
  · exact (formatPlural_spec 1 _ _).1 rfl
  · rw [(formatPlural_spec 0 "\x7b\x7bcount\x7d\x7d item"
      "\x7b\x7bcount\x7d\x7d items").2 (by decide)]
    decide

/-- Claim C2 as amended: for every key whose walk stays within the data of
both trees (`safeWalk`: no property read on a string or number leaf, no miss
on an `Object.prototype` member name — on that fragment the embedding agrees
with JavaScript exactly) and whose walk resolves to a string leaf neither in
the loaded translations entry for the namespace nor in the DefaultBundle
entry for it (the walk hits `undefined` or ends on a non-string), `t`
returns the original key unchanged.  The model is a total function, so no
exception can escape, matching the catch-all in the source.  Without the
`safeWalk` proviso the claim is false: a dot path that continues into a
string leaf with a numeric index returns that character, not the key — see
the counterexample. -/
theorem t_missing_key_fallback (cfg : Config) (fetch : String → FetchOutcome)
    (s : PState) (key ns : String)
    (_hsafe1 : safeWalk (assocLookup s.translations ns) (splitDots key) =
      true)
    (_hsafe2 : safeWalk (assocLookup cfg.defaultTranslations ns)
      (splitDots key) = true)
    (h1 : ∀ str,
      walkPath (assocLookup s.translations ns) (splitDots key) ≠
        some (.str str))
    (h2 : ∀ str,
      walkPath (assocLookup cfg.defaultTranslations ns) (splitDots key) ≠
        some (.str str)) :
    (tOp cfg fetch key ns s).1 = key := by
  show tLookup cfg s.translations key ns = key
  unfold tLookup
  dsimp only
  by_cases hc : (!jsTruthy (assocLookup s.translations ns) &&
      jsTruthy (assocLookup cfg.defaultTranslations ns)) = true
  · rw [if_pos hc]
    cases hw : walkPath (assocLookup cfg.defaultTranslations ns)
      (splitDots key) with
    | none => rfl
    | some j => cases j with
      | str str => exact absurd hw (h2 str)
      | num n => rfl
      | obj l => rfl
  · rw [if_neg hc]
    cases hw : walkPath (assocLookup s.translations ns) (splitDots key) with
    | none => rfl
    | some j => cases j with
      | str str => exact absurd hw (h1 str)
      | num n => rfl
      | obj l => rfl

/-- State used by the witnesses of the resolution claims: Spanish selected,
one loaded namespace, live translations equal to the DefaultBundle. -/
def witnessCfg : Config :=
  { defaultLanguage := "en",
    defaultTranslations :=
      [("common", .obj [("nav", .obj [("back", .str "Back")])])],
    translationManifest := [("es/common", "es/common.ab12cd34.json")],
    localesPath := "/locales",
    localesHashedPath := "/locales-hashed" }

/-- Provider state for the witnesses: language `es`, translations still the
DefaultBundle, namespace `common` requested. -/
def witnessState : PState :=
  { language := "es",
    translations := witnessCfg.defaultTranslations,
    loadedNamespaces := ["common"],
    isLoading := false,
    fetchLog := [],
    errorLog := [] }

/-- Counterexample for C2 as stated: the path `nav.back.0` reaches no string
leaf of the data in either tree (the only string-leaf path of the `common`
tree is `nav.back`), yet `t` does not return the key — the walk steps into
the string leaf `"Back"` through its numeric own property `0` and returns
`"B"`. -/
theorem t_missing_key_counterexample :
    assocLookup witnessState.translations "common" =
      some (.obj [("nav", .obj [("back", .str "Back")])]) ∧
    assocLookup witnessCfg.defaultTranslations "common" =
      some (.obj [("nav", .obj [("back", .str "Back")])]) ∧
    ["nav", "back", "0"] ∉
      stringLeafPaths [("nav", .obj [("back", .str "Back")])] ∧
    (tOp witnessCfg (fun _ => .notOk) "nav.back.0" "common" witnessState).1 =
      "B" ∧
    "B" ≠ "nav.back.0" :=
  ⟨rfl, rfl, by simp [stringLeafPaths], rfl, by decide⟩

/-- Witness for the amended C2: the missing path `nav.missing` stays inside
the data and comes back unchanged. -/
theorem t_missing_key_fallback_witness :
    (tOp witnessCfg (fun _ => .notOk) "nav.missing" "common" witnessState).1 =
      "nav.missing" :=
  t_missing_key_fallback witnessCfg (fun _ => .notOk) witnessState
    "nav.missing" "common" (by decide) (by decide)
    (fun str h => by exact Option.noConfusion h)
    (fun str h => by exact Option.noConfusion h)

/-- Configuration refuting C5 as literally stated: the manifest CONTAINS the
key `es/common`, but with the empty string as value. -/
def emptyEntryCfg : Config :=
  { defaultLanguage := "en",
    defaultTranslations :=
      [("common", .obj [("nav", .obj [("back", .str "Back")])])],
    translationManifest := [("es/common", "")],
    localesPath := "/locales",
    localesHashedPath := "/locales-hashed" }

/-- Counterexample for C5 as stated: the manifest contains the key
`es/common` (with value `""`), yet the computed URL is the conventional path,
not `{localesHashedPath}/{manifestValue}` — the code tests the entry for
truthiness (`if (hashedFilename)`), not for presence, so an empty-string
entry falls back to the conventional path. -/
theorem manifest_precedence_counterexample :
    manifestLookup emptyEntryCfg.translationManifest "es/common" = some "" ∧
    resolveUrl emptyEntryCfg "es" "common" = "/locales/es/common.json" ∧
    resolveUrl emptyEntryCfg "es" "common" ≠
      emptyEntryCfg.localesHashedPath ++ "/" ++ "" := by
  refine ⟨rfl, by decide, by decide⟩

/-- Claim C5 as amended: for every fetch issued for `(language, namespace)`
by the loader, the URL is `resolveUrl`; when the manifest holds a non-empty
entry for `"{language}/{namespace}"` that URL is the hashed path, when the
entry is absent — or present but empty, the one case the original claim
misses — it is the conventional `{localesPath}/{language}/{namespace}.json`. -/
theorem manifest_precedence (cfg : Config) (fetch : String → FetchOutcome)
    (nss : List String) (s : PState) (ns : String)
    (hlang : s.language ≠ cfg.defaultLanguage) (hmem : ns ∈ nss) :
    (FetchEvent.mk s.language ns (resolveUrl cfg s.language ns) ∈
      (loadTranslationsForNamespaces cfg fetch nss s).fetchLog) ∧
    (∀ h, manifestLookup cfg.translationManifest (s.language ++ "/" ++ ns) =
        some h → h ≠ "" →
      resolveUrl cfg s.language ns = cfg.localesHashedPath ++ "/" ++ h) ∧
    (manifestLookup cfg.translationManifest (s.language ++ "/" ++ ns) =
        none →
      resolveUrl cfg s.language ns =
        cfg.localesPath ++ "/" ++ s.language ++ "/" ++ ns ++ ".json") ∧
    (manifestLookup cfg.translationManifest (s.language ++ "/" ++ ns) =
        some "" →
      resolveUrl cfg s.language ns =
        cfg.localesPath ++ "/" ++ s.language ++ "/" ++ ns ++ ".json") := by
  refine ⟨?_, fun h hl hne => ?_, fun hl => ?_, fun hl => ?_⟩
  · rw [loadTranslations_fetchLog, if_neg hlang]
    exact List.mem_append_right _ (List.mem_map.mpr ⟨ns, hmem, rfl⟩)
  · unfold resolveUrl; rw [hl]; simp [hne]
  · unfold resolveUrl; rw [hl]
  · unfold resolveUrl; rw [hl]; simp

/-- Witness for the amended C5 at `witnessCfg`: the batch for `common` under
`es` fetches exactly the hashed URL from the manifest. -/
theorem manifest_precedence_witness :
    FetchEvent.mk "es" "common" (resolveUrl witnessCfg "es" "common") ∈
      (loadTranslationsForNamespaces witnessCfg (fun _ => .notOk) ["common"]
        witnessState).fetchLog ∧
    resolveUrl witnessCfg "es" "common" =
      "/locales-hashed/" ++ "es/common.ab12cd34.json" := by
  have h := manifest_precedence witnessCfg (fun _ => .notOk) ["common"]
    witnessState "common" (by decide) (by decide)
  exact ⟨h.1, h.2.1 "es/common.ab12cd34.json" rfl (by decide)⟩

/-! Fetch accounting: the events each operation appends to the log. -/

theorem tOp_fetchLog (cfg : Config) (fetch : String → FetchOutcome)
    (key ns : String) (s : PState) :
    ((tOp cfg fetch key ns s).2).fetchLog =
      s.fetchLog ++ opFetches cfg (.tCall key ns) s := by
  unfold tOp opFetches
  by_cases h1 : ns ∈ s.loadedNamespaces
  · simp [h1]
  · by_cases h2 : s.language = cfg.defaultLanguage
    · simp [h1, h2]
    · simp [h1, h2, loadTranslations_fetchLog]

theorem loadNamespacesOp_fetchLog (cfg : Config)
    (fetch : String → FetchOutcome) (nss : List String) (s : PState) :
    (loadNamespacesOp cfg fetch nss s).fetchLog =
      s.fetchLog ++ opFetches cfg (.loadNs nss) s := by
  unfold loadNamespacesOp opFetches
  dsimp only
  by_cases h1 :
      (nss.filter (fun ns => decide (ns ∉ s.loadedNamespaces))).isEmpty = true
  · rw [if_pos h1, if_pos h1, List.append_nil]
  · rw [if_neg h1, if_neg h1, loadTranslations_fetchLog]

theorem setLanguageOp_fetchLog (cfg : Config) (fetch : String → FetchOutcome)
    (lang : String) (s : PState) :
    (setLanguageOp cfg fetch lang s).fetchLog =
      s.fetchLog ++ opFetches cfg (.setLang lang) s := by
  unfold setLanguageOp languageEffect opFetches
  by_cases h : lang = cfg.defaultLanguage
  · simp [h]
  · simp [h, loadTranslations_fetchLog]

theorem applyOp_fetchLog (cfg : Config) (fetch : String → FetchOutcome)
    (op : Op) (s : PState) :
    (applyOp cfg fetch op s).fetchLog = s.fetchLog ++ opFetches cfg op s := by
  cases op with
  | tCall key ns => exact tOp_fetchLog cfg fetch key ns s
  | loadNs nss => exact loadNamespacesOp_fetchLog cfg fetch nss s
  | setLang lang => exact setLanguageOp_fetchLog cfg fetch lang s

/-- Number of fetches for namespace `ns` appended to the log by one
operation run from state `s`. -/
def newFetchesFor (cfg : Config) (fetch : String → FetchOutcome) (op : Op)
    (s : PState) (ns : String) : Nat :=
  (((applyOp cfg fetch op s).fetchLog).drop s.fetchLog.length).countP
    (fun e => decide (e.ns = ns))

theorem newFetchesFor_eq (cfg : Config) (fetch : String → FetchOutcome)
    (op : Op) (s : PState) (ns : String) :
    newFetchesFor cfg fetch op s ns =
      (opFetches cfg op s).countP (fun e => decide (e.ns = ns)) := by
  unfold newFetchesFor
  rw [applyOp_fetchLog, List.drop_left]

theorem countP_loaderEvents (cfg : Config) (lang : String)
    (nss : List String) (ns : String) :
    (loaderEvents cfg lang nss).countP (fun e => decide (e.ns = ns)) =
      nss.countP (fun n => decide (n = ns)) := by
  unfold loaderEvents
  rw [List.countP_map]
  rfl

theorem loadNs_single_mem_after (cfg : Config) (fetch : String → FetchOutcome)
    (A : String) (s : PState) :
    A ∈ (applyOp cfg fetch (.loadNs [A]) s).loadedNamespaces := by
  show A ∈ (loadNamespacesOp cfg fetch [A] s).loadedNamespaces
  unfold loadNamespacesOp
  dsimp only
  by_cases hA : A ∈ s.loadedNamespaces
  · have hf : List.filter (fun ns => decide (ns ∉ s.loadedNamespaces)) [A]
        = [] := by simp [hA]
    rw [hf]
    simpa using hA
  · have hf : List.filter (fun ns => decide (ns ∉ s.loadedNamespaces)) [A]
        = [A] := by simp [hA]
    rw [hf]
    have : ([A] : List String).isEmpty = false := rfl
    rw [this]
    simp only [Bool.false_eq_true, if_false, loadTranslations_loaded]
    simp only [List.foldl_cons, List.foldl_nil]
    exact (mem_insertNs _ _ _).mpr (Or.inr rfl)

/-- Claim C1: a namespace already requested (already in `loadedNamespaces`)
is never fetched again by `t` or by `loadNamespaces`; consequently two
successive `loadNamespaces([A])` calls issue at most one fetch for `A`
between them.  (`setLanguage` deliberately re-fetches requested namespaces
and is outside the claim.) -/
theorem namespace_load_idempotent (cfg : Config)
    (fetch : String → FetchOutcome) (s : PState) (ns : String)
    (h : ns ∈ s.loadedNamespaces) :
    (∀ key ns₂, newFetchesFor cfg fetch (.tCall key ns₂) s ns = 0) ∧
    (∀ nss, newFetchesFor cfg fetch (.loadNs nss) s ns = 0) ∧
    (∀ A, newFetchesFor cfg fetch (.loadNs [A]) s A +
        newFetchesFor cfg fetch (.loadNs [A])
          (applyOp cfg fetch (.loadNs [A]) s) A ≤ 1) := by
  have hcount : ∀ (s' : PState) (nss : List String) (x : String),
      x ∈ s'.loadedNamespaces →
      newFetchesFor cfg fetch (.loadNs nss) s' x = 0 := by
    intro s' nss x hx
    rw [newFetchesFor_eq]
    unfold opFetches
    dsimp only
    split
    · rfl
    · split
      · rfl
      · rw [countP_loaderEvents, List.countP_eq_zero]
        intro a ha
        have := List.mem_filter.mp ha
        simp only [decide_eq_true_eq] at this
        simp only [decide_eq_true_eq]
        exact fun hax => this.2 (hax ▸ hx)
  refine ⟨?_, fun nss => hcount s nss ns h, ?_⟩
  · intro key ns₂
    rw [newFetchesFor_eq]
    unfold opFetches
    dsimp only
    split
    · rfl
    · next hns₂ =>
      split
      · rfl
      · rw [countP_loaderEvents]
        simp only [List.countP_singleton]
        have : ns₂ ≠ ns := fun hh => hns₂ (hh ▸ h)
        simp [this]
  · intro A
    have h2 : newFetchesFor cfg fetch (.loadNs [A])
        (applyOp cfg fetch (.loadNs [A]) s) A = 0 :=
      hcount _ [A] A (loadNs_single_mem_after cfg fetch A s)
    rw [h2, Nat.add_zero]
    rw [newFetchesFor_eq]
    unfold opFetches
    dsimp only
    split
    · exact Nat.zero_le 1
    · split
      · exact Nat.zero_le 1
      · rw [countP_loaderEvents]
        calc (List.filter (fun n => decide (n ∉ s.loadedNamespaces))
                [A]).countP (fun n => decide (n = A))
            ≤ (List.filter (fun n => decide (n ∉ s.loadedNamespaces))
                [A]).length := List.countP_le_length _
          _ ≤ ([A] : List String).length := List.length_filter_le _ _
          _ = 1 := rfl

/-- Witness for C1 at the witness state (`common` already requested): no
fetch for `common` is issued by a further `t` call, a further
`loadNamespaces(["common", "extra"])` call, and the two-successive-calls
bound holds for `extra`. -/
theorem namespace_load_idempotent_witness :
    newFetchesFor witnessCfg (fun _ => .notOk)
      (.tCall "nav.back" "common") witnessState "common" = 0 ∧
    newFetchesFor witnessCfg (fun _ => .notOk)
      (.loadNs ["common", "extra"]) witnessState "common" = 0 ∧
    newFetchesFor witnessCfg (fun _ => .notOk) (.loadNs ["extra"])
        witnessState "extra" +
      newFetchesFor witnessCfg (fun _ => .notOk) (.loadNs ["extra"])
        (applyOp witnessCfg (fun _ => .notOk) (.loadNs ["extra"])
          witnessState) "extra" ≤ 1 := by
  have h := namespace_load_idempotent witnessCfg (fun _ => .notOk)
    witnessState "common" (by decide)
  exact ⟨h.1 "nav.back" "common", h.2.1 ["common", "extra"], h.2.2 "extra"⟩

theorem languageEffect_loaded (cfg : Config) (fetch : String → FetchOutcome)
    (s : PState) :
    (languageEffect cfg fetch s).loadedNamespaces = s.loadedNamespaces := by
  unfold languageEffect
  split
  · rfl
  · rw [loadTranslations_loaded]

/-- Claim C9: `loadedNamespaces` is seeded with exactly the namespace keys of
`defaultTranslations`, and every operation (`t`, `loadNamespaces`,
`setLanguage` with its effect, and the mount run of the effect) only ever
adds namespaces — in particular a language switch never clears the set. -/
theorem loadedNamespaces_monotone (cfg : Config)
    (fetch : String → FetchOutcome) (saved : Option String)
    (isSupportedLanguage : String → Bool) :
    (∀ x, x ∈ (initState cfg saved isSupportedLanguage).loadedNamespaces ↔
      x ∈ cfg.defaultTranslations.map Prod.fst) ∧
    (∀ op s, s.loadedNamespaces ⊆ (applyOp cfg fetch op s).loadedNamespaces) ∧
    (∀ s : PState,
      s.loadedNamespaces ⊆ (languageEffect cfg fetch s).loadedNamespaces) := by
  refine ⟨?_, ?_, fun s => by
    rw [languageEffect_loaded]
    exact fun x hx => hx⟩
  · intro x
    show x ∈ (cfg.defaultTranslations.map Prod.fst).foldl insertNs [] ↔ _
    rw [mem_foldl_insertNs]
    simp
  · intro op s
    cases op with
    | tCall key ns =>
      show s.loadedNamespaces ⊆ ((tOp cfg fetch key ns s).2).loadedNamespaces
      unfold tOp
      dsimp only
      split
      · exact fun x hx => hx
      · split
        · exact subset_insertNs _ _
        · rw [loadTranslations_loaded]
          exact subset_insertNs _ _
    | loadNs nss =>
      show s.loadedNamespaces ⊆
        (loadNamespacesOp cfg fetch nss s).loadedNamespaces
      unfold loadNamespacesOp
      dsimp only
      split
      · exact fun x hx => hx
      · rw [loadTranslations_loaded]
        exact subset_foldl_insertNs _ _
    | setLang lang =>
      show s.loadedNamespaces ⊆
        (setLanguageOp cfg fetch lang s).loadedNamespaces
      unfold setLanguageOp
      rw [languageEffect_loaded]
      exact fun x hx => hx

/-- Witness for C9: the initial set contains exactly the bundled namespace
`common`, and `common` survives a language switch. -/
theorem loadedNamespaces_monotone_witness :
    ("common" ∈
      (initState witnessCfg none (fun _ => true)).loadedNamespaces) ∧
    ("common" ∈ (applyOp witnessCfg (fun _ => .notOk) (.setLang "fr")
      witnessState).loadedNamespaces) := by
  have h := loadedNamespaces_monotone witnessCfg (fun _ => .notOk) none
    (fun _ => true)
  refine ⟨(h.1 "common").mpr (by decide), ?_⟩
  exact h.2.1 (.setLang "fr") witnessState (by decide)

/-- Session invariant behind the default-language shortcut: whenever the
current language is the default one, the live `translations` state is exactly
the DefaultBundle. -/
def defaultInv (cfg : Config) (s : PState) : Prop :=
  s.language = cfg.defaultLanguage → s.translations = cfg.defaultTranslations

theorem languageEffect_defaultInv (cfg : Config)
    (fetch : String → FetchOutcome) (s : PState) :
    defaultInv cfg (languageEffect cfg fetch s) := by
  unfold languageEffect
  split
  · exact fun _ => rfl
  · next hne =>
    intro hl
    rw [loadTranslations_language] at hl
    exact absurd hl hne

theorem applyOp_defaultInv (cfg : Config) (fetch : String → FetchOutcome)
    (op : Op) (s : PState) (h : defaultInv cfg s) :
    defaultInv cfg (applyOp cfg fetch op s) := by
  cases op with
  | tCall key ns =>
    show defaultInv cfg (tOp cfg fetch key ns s).2
    unfold tOp
    dsimp only
    split
    · exact h
    · split
      · exact h
      · next hne =>
        intro hl
        rw [loadTranslations_language] at hl
        exact absurd hl hne
  | loadNs nss =>
    show defaultInv cfg (loadNamespacesOp cfg fetch nss s)
    unfold loadNamespacesOp
    dsimp only
    split
    · exact h
    · intro hl
      rw [loadTranslations_language] at hl
      rw [loadTranslations_translations_default _ _ _ _ hl]
      exact h hl
  | setLang lang => exact languageEffect_defaultInv cfg fetch _

theorem reachable_defaultInv (cfg : Config) (fetch : String → FetchOutcome)
    (saved : Option String) (isSupportedLanguage : String → Bool) (s : PState)
    (h : reachable cfg fetch saved isSupportedLanguage s) :
    defaultInv cfg s := by
  obtain ⟨ops, rfl⟩ := h
  have aux : ∀ (l : List Op) (s₀ : PState), defaultInv cfg s₀ →
      defaultInv cfg
        (l.foldl (fun st op => applyOp cfg fetch op st) s₀) := by
    intro l
    induction l with
    | nil => exact fun s₀ h₀ => h₀
    | cons a rest ih =>
      intro s₀ h₀
      rw [List.foldl_cons]
      exact ih _ (applyOp_defaultInv cfg fetch a s₀ h₀)
  exact aux ops _ (languageEffect_defaultInv cfg fetch _)

theorem tLookup_defaults (cfg : Config) (key ns : String) :
    tLookup cfg cfg.defaultTranslations key ns =
      resolveFromDefaults cfg key ns := by
  unfold tLookup resolveFromDefaults
  dsimp only
  rw [Bool.not_and_self]
  simp

/-- Claim C4: in every reachable state whose language is the default one, a
`t` call returns the value computed from the DefaultBundle alone
(`resolveFromDefaults` mentions nothing but `cfg.defaultTranslations`), and
neither `t` nor `loadNamespaces` issues any fetch. -/
theorem default_language_shortcut (cfg : Config)
    (fetch : String → FetchOutcome) (saved : Option String)
    (isSupportedLanguage : String → Bool) (s : PState)
    (hreach : reachable cfg fetch saved isSupportedLanguage s)
    (hlang : s.language = cfg.defaultLanguage) :
    (∀ key ns, (tOp cfg fetch key ns s).1 =
      resolveFromDefaults cfg key ns) ∧
    (∀ key ns, ((tOp cfg fetch key ns s).2).fetchLog = s.fetchLog) ∧
    (∀ nss, (loadNamespacesOp cfg fetch nss s).fetchLog = s.fetchLog) := by
  have htr : s.translations = cfg.defaultTranslations :=
    reachable_defaultInv cfg fetch saved isSupportedLanguage s hreach hlang
  refine ⟨fun key ns => ?_, fun key ns => ?_, fun nss => ?_⟩
  · show tLookup cfg s.translations key ns = _
    rw [htr]
    exact tLookup_defaults cfg key ns
  · rw [tOp_fetchLog]
    simp [opFetches, hlang]
  · rw [loadNamespacesOp_fetchLog]
    simp [opFetches, hlang]

/-- Initial state of the witness session for the default-language claims:
no stored language, so the session starts in the default language `en`. -/
def defaultWitnessState : PState :=
  languageEffect witnessCfg (fun _ => .notOk)
    (initState witnessCfg none (fun _ => true))

/-- Witness for C4: in the freshly mounted default-language session, `t`
resolves `nav.back` from the DefaultBundle (to `"Back"`) and neither `t` nor
`loadNamespaces` fetches anything. -/
theorem default_language_shortcut_witness :
    (tOp witnessCfg (fun _ => .notOk) "nav.back" "common"
      defaultWitnessState).1 = resolveFromDefaults witnessCfg "nav.back"
        "common" ∧
    resolveFromDefaults witnessCfg "nav.back" "common" = "Back" ∧
    ((tOp witnessCfg (fun _ => .notOk) "nav.back" "common"
      defaultWitnessState).2).fetchLog = defaultWitnessState.fetchLog ∧
    (loadNamespacesOp witnessCfg (fun _ => .notOk) ["dashboard"]
      defaultWitnessState).fetchLog = defaultWitnessState.fetchLog := by
  have h := default_language_shortcut witnessCfg (fun _ => .notOk) none
    (fun _ => true) defaultWitnessState ⟨[], rfl⟩ (by decide)
  exact ⟨h.1 "nav.back" "common", by decide, h.2.1 "nav.back" "common",
    h.2.2 ["dashboard"]⟩

theorem loadTranslations_errorLog (cfg : Config)
    (fetch : String → FetchOutcome) (nss : List String) (s : PState) :
    (loadTranslationsForNamespaces cfg fetch nss s).errorLog =
      s.errorLog ++
        (if s.language = cfg.defaultLanguage then []
         else loaderErrors cfg fetch s.language nss) := by
  unfold loadTranslationsForNamespaces; split <;> simp_all

theorem loadTranslations_lookup (cfg : Config) (fetch : String → FetchOutcome)
    (nss : List String) (s : PState) (ns : String) (hnodup : nss.Nodup)
    (hmem : ns ∈ nss) (hlang : ¬s.language = cfg.defaultLanguage) :
    assocLookup (loadTranslationsForNamespaces cfg fetch nss s).translations
      ns = entryOutcome cfg fetch s.language ns := by
  unfold loadTranslationsForNamespaces
  rw [if_neg hlang]
  dsimp only
  apply applyEntries_lookup_mem
  · exact List.mem_map.mpr ⟨ns, hmem, rfl⟩
  · rw [List.map_map]
    have hcomp : (Prod.fst ∘ fun ns =>
        (ns, entryOutcome cfg fetch s.language ns)) = id := rfl
    rw [hcomp, List.map_id]
    exact hnodup

theorem tLookup_of_lookup_eq_default (cfg : Config)
    (tr : List (String × Json)) (key ns : String)
    (h : assocLookup tr ns = assocLookup cfg.defaultTranslations ns) :
    tLookup cfg tr key ns = resolveFromDefaults cfg key ns := by
  unfold tLookup resolveFromDefaults
  dsimp only
  rw [h, Bool.not_and_self]
  simp

/-- Counterexample for C3 as stated: a non-2xx response for `(es, common)` is
one of the failure modes the claim covers, but the code takes the silent
`else` branch (`response.ok` false) without any `console.error` — the error
log stays empty, so the "failure is logged" part of the claim is false. -/
theorem fetch_failure_fallback_counterexample :
    (fun _ : String => FetchOutcome.notOk) (resolveUrl witnessCfg "es"
      "common") = .notOk ∧
    (loadTranslationsForNamespaces witnessCfg (fun _ => .notOk) ["common"]
      witnessState).errorLog = [] :=
  ⟨rfl, rfl⟩

/-- Claim C3 as amended: when the fetch for `(lang, ns)` fails (non-2xx
response or thrown network/parse error), the translations entry for `ns` is
populated with the DefaultBundle data for `ns`, every subsequent `t(key, ns)`
returns exactly what it would return under the default language, and the
failure is logged when it is a thrown error — a non-2xx response falls back
silently.  Nothing is thrown in either case: the model is a total function,
matching the catch in the source. -/
theorem fetch_failure_fallback (cfg : Config) (fetch : String → FetchOutcome)
    (nss : List String) (s : PState) (ns : String) (hnodup : nss.Nodup)
    (hmem : ns ∈ nss) (hlang : ¬s.language = cfg.defaultLanguage)
    (hfail : fetch (resolveUrl cfg s.language ns) = .notOk ∨
      fetch (resolveUrl cfg s.language ns) = .err) :
    (assocLookup
        (loadTranslationsForNamespaces cfg fetch nss s).translations ns =
      assocLookup cfg.defaultTranslations ns) ∧
    (∀ key, tLookup cfg
        (loadTranslationsForNamespaces cfg fetch nss s).translations key ns =
      resolveFromDefaults cfg key ns) ∧
    (fetch (resolveUrl cfg s.language ns) = .err →
      ns ∈ (loadTranslationsForNamespaces cfg fetch nss s).errorLog) ∧
    (fetch (resolveUrl cfg s.language ns) = .notOk →
      ns ∉ loaderErrors cfg fetch s.language nss) := by
  have hlook : assocLookup
      (loadTranslationsForNamespaces cfg fetch nss s).translations ns =
      assocLookup cfg.defaultTranslations ns := by
    rw [loadTranslations_lookup cfg fetch nss s ns hnodup hmem hlang]
    unfold entryOutcome
    rcases hfail with hf | hf <;> rw [hf]
  refine ⟨hlook, fun key => tLookup_of_lookup_eq_default cfg _ key ns hlook,
    fun herr => ?_, fun hok => ?_⟩
  · rw [loadTranslations_errorLog, if_neg hlang]
    refine List.mem_append_right _ ?_
    unfold loaderErrors
    refine List.mem_filter.mpr ⟨hmem, ?_⟩
    rw [herr]
  · intro hin
    have := (List.mem_filter.mp hin).2
    rw [hok] at this
    exact Bool.noConfusion this

/-- Witness for the amended C3: with every fetch throwing, the `common`
namespace falls back to the DefaultBundle, `t` resolves `nav.back` as the
default language would, and the failure is logged. -/
theorem fetch_failure_fallback_witness :
    assocLookup (loadTranslationsForNamespaces witnessCfg (fun _ => .err)
      ["common"] witnessState).translations "common" =
      assocLookup witnessCfg.defaultTranslations "common" ∧
    tLookup witnessCfg (loadTranslationsForNamespaces witnessCfg
      (fun _ => .err) ["common"] witnessState).translations "nav.back"
      "common" = resolveFromDefaults witnessCfg "nav.back" "common" ∧
    "common" ∈ (loadTranslationsForNamespaces witnessCfg (fun _ => .err)
      ["common"] witnessState).errorLog := by
  have h := fetch_failure_fallback witnessCfg (fun _ => .err) ["common"]
    witnessState "common" (by simp) (by simp) (by decide) (Or.inr rfl)
  exact ⟨h.1, h.2.1 "nav.back", h.2.2.1 rfl⟩

/-- Claim C6, stated per batch (the granularity of the claim; concurrent
overlap of distinct batches is outside this sequential model): away from the
default language, `isLoading` is true in every intermediate state of a batch
— from right after `setIsLoading(true)` to just before the `finally` — and is
false in the final state, which is reached only once EVERY namespace of the
batch has resolved: each one holds its own fetched data (`Loaded`) or the
DefaultBundle entry (`FallenBack`), each as a function of its own fetch
outcome alone, so one failing namespace never aborts its siblings, and one
fetch event per namespace of the batch is always issued. -/
theorem fetch_batching (cfg : Config) (fetch : String → FetchOutcome)
    (nss : List String) (s : PState)
    (hlang : ¬s.language = cfg.defaultLanguage) (hnodup : nss.Nodup) :
    (∀ st ∈ batchTrace cfg fetch nss s, st.isLoading = true) ∧
    ((loadTranslationsForNamespaces cfg fetch nss s).isLoading = false) ∧
    (∀ ns ∈ nss,
      assocLookup
          (loadTranslationsForNamespaces cfg fetch nss s).translations ns =
        entryOutcome cfg fetch s.language ns) ∧
    (∀ ns ∈ nss,
      FetchEvent.mk s.language ns (resolveUrl cfg s.language ns) ∈
        (loadTranslationsForNamespaces cfg fetch nss s).fetchLog) := by
  refine ⟨fun st hst => ?_, ?_, fun ns hns => ?_, fun ns hns => ?_⟩
  · obtain ⟨i, _, rfl⟩ := List.mem_map.mp hst
    rfl
  · unfold loadTranslationsForNamespaces
    rw [if_neg hlang]
  · exact loadTranslations_lookup cfg fetch nss s ns hnodup hns hlang
  · rw [loadTranslations_fetchLog, if_neg hlang]
    exact List.mem_append_right _ (List.mem_map.mpr ⟨ns, hns, rfl⟩)

/-- Fetch oracle for the batching witness: the hashed URL for `es/common`
succeeds with Spanish data, anything else throws. -/
def batchFetch : String → FetchOutcome := fun url =>
  if url = resolveUrl witnessCfg "es" "common" then
    .ok (.obj [("nav", .obj [("back", .str "Atras")])])
  else .err

/-- Witness for C6 on the two-namespace batch `["common", "dashboard"]`
where `common` succeeds and `dashboard` fails: the whole trace is loading,
the final state is not, `common` ends Loaded with the fetched data while its
failing sibling `dashboard` ends FallenBack (to the absent DefaultBundle
entry) without aborting it, and both namespaces were fetched. -/
theorem fetch_batching_witness :
    ((batchTrace witnessCfg batchFetch ["common", "dashboard"]
      witnessState).all (fun st => st.isLoading)) = true ∧
    (loadTranslationsForNamespaces witnessCfg batchFetch
      ["common", "dashboard"] witnessState).isLoading = false ∧
    assocLookup (loadTranslationsForNamespaces witnessCfg batchFetch
      ["common", "dashboard"] witnessState).translations "common" =
      some (.obj [("nav", .obj [("back", .str "Atras")])]) ∧
    assocLookup (loadTranslationsForNamespaces witnessCfg batchFetch
      ["common", "dashboard"] witnessState).translations "dashboard" =
      none ∧
    FetchEvent.mk "es" "dashboard" (resolveUrl witnessCfg "es" "dashboard") ∈
      (loadTranslationsForNamespaces witnessCfg batchFetch
        ["common", "dashboard"] witnessState).fetchLog := by
  have h := fetch_batching witnessCfg batchFetch ["common", "dashboard"]
    witnessState (by decide) (by simp)
  refine ⟨List.all_eq_true.mpr (fun st hst => h.1 st hst), h.2.1, ?_, ?_, ?_⟩
  · rw [h.2.2.1 "common" (by simp)]
    rfl
  · rw [h.2.2.1 "dashboard" (by simp)]
    rfl
  · exact h.2.2.2 "dashboard" (by simp)

theorem md5ProcessChunk_a_lt (st : Md5State) (m : List Nat) :
    (md5ProcessChunk st m).a < 4294967296 := by
  unfold md5ProcessChunk add32
  dsimp only
  exact Nat.mod_lt _ (by norm_num)

theorem md5Final_a_lt (msg : List Nat) : (md5Final msg).a < 4294967296 := by
  unfold md5Final
  dsimp only
  have aux : ∀ (l : List Nat) (st : Md5State), st.a < 4294967296 →
      ((l.foldl (fun st i => md5ProcessChunk st (md5Words (md5Pad msg) i))
        st).a < 4294967296) := by
    intro l
    induction l with
    | nil => exact fun st h => h
    | cons x rest ih =>
      intro st h
      rw [List.foldl_cons]
      exact ih _ (md5ProcessChunk_a_lt _ _)
  exact aux _ md5Init (by norm_num [md5Init])

theorem generateHash_eq_firstWord (c : List Nat) :
    generateHash c =
      String.mk ((le4 (md5Final c).a).flatMap byteHexChars) := rfl

/-- Counterexample for the second half of C7 as stated: `generateHash`
truncates the digest to 8 hex characters, i.e. 32 bits, so by pigeonhole over
2^32 + 1 distinct contents two different byte strings receive the same hash —
"different contents always yield different hashes" is false. -/
theorem generateHash_collision :
    ∃ c₁ c₂ : List Nat, c₁ ≠ c₂ ∧ generateHash c₁ = generateHash c₂ := by
  obtain ⟨x, hx, y, hy, hxy, hf⟩ :=
    Finset.exists_ne_map_eq_of_card_lt_of_maps_to
      (s := Finset.range (4294967296 + 1)) (t := Finset.range 4294967296)
      (f := fun n => (md5Final (List.replicate n 0)).a)
      (by simp) (fun a _ => Finset.mem_range.mpr (md5Final_a_lt _))
  refine ⟨List.replicate x 0, List.replicate y 0, ?_, ?_⟩
  · intro h
    apply hxy
    have := congrArg List.length h
    simpa using this
  · rw [generateHash_eq_firstWord, generateHash_eq_firstWord]
    have : (md5Final (List.replicate x 0)).a =
        (md5Final (List.replicate y 0)).a := hf
    rw [this]

theorem md5Digest_length (msg : List Nat) : (md5Digest msg).length = 16 := by
  unfold md5Digest le4
  dsimp only
  simp

theorem length_flatMap_byteHex (l : List Nat) :
    (l.flatMap byteHexChars).length = 2 * l.length := by
  induction l with
  | nil => rfl
  | cons a rest ih =>
    rw [List.flatMap_cons, List.length_append, ih]
    show 2 + 2 * rest.length = 2 * (rest.length + 1)
    ring

/-- Claim C7 as amended: `generateHash` is a deterministic function of the
file content alone — two files with byte-identical content receive the same
hash whatever their paths and modification times, and the hash has exactly 8
characters.  The converse direction of the original claim (distinct contents
always produce distinct hashes) cannot hold for a 32-bit hash; see the
pigeonhole counterexample. -/
theorem generateHash_deterministic (f₁ f₂ : FileRecord)
    (h : f₁.content = f₂.content) :
    hashFile f₁ = hashFile f₂ ∧ (hashFile f₁).length = 8 := by
  constructor
  · unfold hashFile
    rw [h]
  · show ((md5HexChars f₁.content).take 8).length = 8
    rw [List.length_take]
    have h32 : (md5HexChars f₁.content).length = 32 := by
      unfold md5HexChars
      rw [length_flatMap_byteHex, md5Digest_length]
    rw [h32]
    decide

/-- Witness for the amended C7: two files with the same bytes but different
paths and modification times hash identically, to 8 characters. -/
theorem generateHash_deterministic_witness :
    hashFile ⟨"/locales/en/common.json", 100, [1, 2, 3]⟩ =
      hashFile ⟨"/tmp/copy.json", 999, [1, 2, 3]⟩ ∧
    (hashFile ⟨"/locales/en/common.json", 100, [1, 2, 3]⟩).length = 8 :=
  generateHash_deterministic _ _ rfl

theorem assocLookup_foldl_set (files : List (String × Json)) :
    ∀ (acc : List (String × Json)) (ns : String),
      (files.map Prod.fst).Nodup →
      assocLookup (files.foldl (fun a p => assocSet a p.1 p.2) acc) ns =
        match assocLookup files ns with
        | some v => some v
        | none => assocLookup acc ns := by
  induction files with
  | nil => intro acc ns _; rfl
  | cons p rest ih =>
    obtain ⟨k, v⟩ := p
    intro acc ns hn
    simp only [List.map_cons, List.nodup_cons] at hn
    rw [List.foldl_cons, ih _ ns hn.2]
    by_cases hk : k = ns
    · subst hk
      rw [assocLookup_eq_none_of_not_mem rest k hn.1]
      show assocLookup (assocSet acc k v) k =
        match assocLookup ((k, v) :: rest) k with
        | some v => some v
        | none => assocLookup acc k
      rw [assocLookup_set_self]
      show _ = match (if k = k then some v else assocLookup rest k) with
        | some v => some v
        | none => assocLookup acc k
      rw [if_pos rfl]
    · have hcons : assocLookup ((k, v) :: rest) ns = assocLookup rest ns := by
        show (if k = ns then some v else assocLookup rest ns) = _
        rw [if_neg hk]
      rw [hcons]
      cases hrest : assocLookup rest ns with
      | some w => rfl
      | none => exact assocLookup_set_ne acc k ns v hk

theorem schema_covers :
    ∀ l : List (String × Json), wellFormedList l = true →
      ∀ p ∈ stringLeafPaths l, p ∈ schemaPaths (generateInterfaceProperties l)
  | [] => by
    intro _ p hp
    simp [stringLeafPaths] at hp
  | (k, .str s) :: rest => by
    intro hwf p hp
    rw [stringLeafPaths] at hp
    rw [generateInterfaceProperties, schemaPaths]
    rcases List.mem_cons.mp hp with rfl | htail
    · exact List.mem_cons_self _ _
    · refine List.mem_cons_of_mem _ ?_
      have hwr : wellFormedList rest = true := by
        rw [wellFormedList] at hwf
        exact hwf
      exact schema_covers rest hwr p htail
  | (k, .num n) :: rest => by
    intro hwf
    rw [wellFormedList] at hwf
    exact absurd hwf (by simp)
  | (k, .obj l) :: rest => by
    intro hwf p hp
    rw [wellFormedList, Bool.and_eq_true] at hwf
    rw [stringLeafPaths] at hp
    rw [generateInterfaceProperties, schemaPaths]
    rcases List.mem_append.mp hp with hin | htail
    · obtain ⟨q, hq, rfl⟩ := List.mem_map.mp hin
      exact List.mem_append_left _
        (List.mem_map.mpr ⟨q, schema_covers l hwf.1 q hq, rfl⟩)
    · exact List.mem_append_right _ (schema_covers rest hwf.2 p htail)

/-- Claim C8: for a directory of well-formed namespace dictionaries (no
duplicate namespaces, internal nodes objects, leaves strings), the
default-bundle generator emits every namespace tree verbatim — hence every
leaf value unchanged — and the schema generator enumerates every dot path
that reaches a string leaf. -/
theorem generators_round_trip (files : List (String × Json))
    (hnodup : (files.map Prod.fst).Nodup) :
    (∀ ns, assocLookup (generateDefaultTranslations files) ns =
      assocLookup files ns) ∧
    (∀ ns l, assocLookup files ns = some (.obj l) →
      wellFormedList l = true →
      ∀ p ∈ stringLeafPaths l,
        p ∈ schemaPaths (generateInterfaceProperties l)) := by
  constructor
  · intro ns
    show assocLookup
      (files.foldl (fun a p => assocSet a p.1 p.2) []) ns = _
    rw [assocLookup_foldl_set files [] ns hnodup]
    cases assocLookup files ns with
    | some v => rfl
    | none => rfl
  · intro ns l _ hwf p hp
    exact schema_covers l hwf p hp

/-- Input directory for the C8 witness: one namespace file with a nested
object and a top-level string leaf. -/
def witnessFiles : List (String × Json) :=
  [("common", .obj [("nav", .obj [("back", .str "Back")]),
    ("title", .str "Site")])]

/-- Witness for C8: the emitted bundle holds the `common` tree verbatim, and
both leaf paths `nav.back` and `title` are enumerated by the schema. -/
theorem generators_round_trip_witness :
    assocLookup (generateDefaultTranslations witnessFiles) "common" =
      some (.obj [("nav", .obj [("back", .str "Back")]),
        ("title", .str "Site")]) ∧
    ["nav", "back"] ∈ schemaPaths (generateInterfaceProperties
      [("nav", .obj [("back", .str "Back")]), ("title", .str "Site")]) ∧
    ["title"] ∈ schemaPaths (generateInterfaceProperties
      [("nav", .obj [("back", .str "Back")]), ("title", .str "Site")]) := by
  have h := generators_round_trip witnessFiles (by simp [witnessFiles])
  refine ⟨(h.1 "common").trans rfl, ?_, ?_⟩
  · exact h.2 "common" _ rfl (by simp [wellFormedList])
      ["nav", "back"] (by simp [stringLeafPaths])
  · exact h.2 "common" _ rfl (by simp [wellFormedList])
      ["title"] (by simp [stringLeafPaths])

end UseTranslation
